import Mathlib

/-!
Verification development for the snapdash secure file-access layer.

The development shallowly embeds the TypeScript sources:
  server/src/services/fileAccessService.ts   (namespace FsBackend)
  the S3 storage service                     (namespace S3Backend)
  the project service folder-name generator  (namespace DbService)
  server/src/middleware/fileLoader.ts        (namespace Middleware)

JavaScript strings are modelled as lists of characters (abbreviation Str).
Node path functions (posix flavour) are modelled lexically: no symlinks,
and the operating system resolves `..` segments lexically, which matches
a symlink-free file tree. The filesystem itself is modelled as a finite
map from resolved absolute paths (segment lists) to file contents plus a
set of explicitly created directories; the object store is a finite map
from flat keys to contents.
-/

/-- JavaScript strings are modelled as lists of characters. -/
abbrev Str := List Char

/-- The backslash character, written by code to avoid escape pitfalls. -/
def bslChar : Char := Char.ofNat 92

/-- The opening curly brace character. -/
def lbraceChar : Char := Char.ofNat 123

/-- The closing curly brace character. -/
def rbraceChar : Char := Char.ofNat 125

/-- The backquote character. -/
def backqChar : Char := Char.ofNat 96

/-- The single quote character. -/
def squoteChar : Char := Char.ofNat 39

/-- The double quote character. -/
def dquoteChar : Char := Char.ofNat 34

/-- Boolean test that the first list is an initial segment of the second.
Models JavaScript String.prototype.startsWith when the first argument is
the candidate prefix. -/
def listLeads {α : Type} [DecidableEq α] : List α → List α → Bool
  | [], _ => true
  | _ :: _, [] => false
  | a :: as', b :: bs' => a = b && listLeads as' bs'

/-- Boolean test that the first list is a proper initial segment of the
second. -/
def listLeadsStrict {α : Type} [DecidableEq α] (a b : List α) : Bool :=
  listLeads a b && decide (a.length < b.length)

/-- Lookup in an association list, leftmost binding wins. -/
def lookupAssoc {α β : Type} [DecidableEq α] : List (α × β) → α → Option β
  | [], _ => none
  | (k, v) :: t, x => if k = x then some v else lookupAssoc t x

/-- Insert or overwrite a binding in an association list. -/
def setAssoc {α β : Type} [DecidableEq α] : List (α × β) → α → β → List (α × β)
  | [], k, v => [(k, v)]
  | (k', v') :: t, k, v => if k' = k then (k, v) :: t else (k', v') :: setAssoc t k v

/-- Remove a binding from an association list. -/
def removeAssoc {α β : Type} [DecidableEq α] : List (α × β) → α → List (α × β)
  | [], _ => []
  | (k', v') :: t, k => if k' = k then t else (k', v') :: removeAssoc t k

theorem lookupAssoc_setAssoc_self {α β : Type} [DecidableEq α]
    (l : List (α × β)) (k : α) (v : β) :
    lookupAssoc (setAssoc l k v) k = some v := by
  induction l with
  | nil => simp [setAssoc, lookupAssoc]
  | cons h t ih =>
    obtain ⟨k', v'⟩ := h
    by_cases hk : k' = k
    · simp [setAssoc, hk, lookupAssoc]
    · simp [setAssoc, hk, lookupAssoc, ih]

/-! ## Node path module (posix), modelled lexically -/

/-- Split a string on the slash separator. -/
def splitSlash : Str → List Str
  | [] => [[]]
  | c :: t =>
    if c = '/' then [] :: splitSlash t
    else
      match splitSlash t with
      | [] => [[c]]
      | h :: r => (c :: h) :: r

/-- One step of segment normalization. The accumulator is kept reversed.
Models how Node normalizeString treats one path segment: empty and dot
segments vanish, a dot-dot segment pops the previous segment when it can,
is dropped at the root of an absolute path, and is kept at the head of a
relative path. -/
def procSeg (abs : Bool) (acc : List Str) (seg : Str) : List Str :=
  if seg = [] ∨ seg = ['.'] then acc
  else if seg = ['.', '.'] then
    match acc with
    | [] => if abs then [] else [['.', '.']]
    | h :: t => if h = ['.', '.'] then ['.', '.'] :: h :: t else t
  else seg :: acc

/-- Normalize a list of raw segments, resolving dot and dot-dot segments. -/
def normalizeSegs (abs : Bool) (segs : List Str) : List Str :=
  (segs.foldl (procSeg abs) []).reverse

/-- Join segments with slashes. -/
def joinSegs (segs : List Str) : Str :=
  List.intercalate ['/'] segs

/-- Whether a path string is absolute. Models path.isAbsolute (posix). -/
def isAbsoluteStr (s : Str) : Bool :=
  match s with
  | '/' :: _ => true
  | _ => false

/-- Models path.normalize (posix): resolve dot and dot-dot segments,
collapse repeated separators, keep a trailing separator. -/
def pathNormalize (s : Str) : Str :=
  if s = [] then ['.']
  else
    let abs := isAbsoluteStr s
    let trail := s.getLast? = some '/'
    let core := normalizeSegs abs (splitSlash s)
    if core = [] then
      if abs then ['/'] else if trail then ['.', '/'] else ['.']
    else
      (if abs then ['/'] else []) ++ joinSegs core ++ (if trail then ['/'] else [])

/-- Models path.join (posix): drop empty parts, concatenate with slashes,
normalize the result. -/
def pathJoin (parts : List Str) : Str :=
  let joined := List.intercalate ['/'] (parts.filter (fun p => p ≠ []))
  if joined = [] then ['.'] else pathNormalize joined

/-- The resolved segment list of a path, made absolute against the given
working directory. Models the lexical effect of path.resolve. -/
def resolveSegs (cwd s : Str) : List Str :=
  let full := if isAbsoluteStr s then s else cwd ++ '/' :: s
  normalizeSegs true (splitSlash full)

/-- Models path.resolve (posix) with one argument and the given working
directory: an absolute path with dot and dot-dot segments resolved and no
trailing separator. -/
def pathResolve (cwd s : Str) : Str :=
  let core := resolveSegs cwd s
  if core = [] then ['/'] else '/' :: joinSegs core

/-! ## Data model -/

/-- A project row joined with its hosts, as produced by rowsToProject in
the project service: id, name, color, folder, hosts. -/
structure Project where
  id : Nat
  name : Str
  color : Str
  folder : Str
  hosts : List Str
deriving DecidableEq

/-- The closed error taxonomy of the file-access layer. The first three
constructors model the classes FileNotFoundError, PathNotFileError and
AccessDeniedError from services/errors.ts; otherErr stands for any other
error thrown by the runtime (transport, EISDIR, ...). -/
inductive FileErr where
  | accessDenied
  | fileNotFound
  | pathNotFile
  | otherErr
deriving DecidableEq

instance {ε α : Type} [DecidableEq ε] [DecidableEq α] : DecidableEq (Except ε α) :=
  fun a b =>
    match a, b with
    | .ok x, .ok y =>
      if h : x = y then isTrue (by rw [h]) else isFalse (by intro hc; cases hc; exact h rfl)
    | .error x, .error y =>
      if h : x = y then isTrue (by rw [h]) else isFalse (by intro hc; cases hc; exact h rfl)
    | .ok _, .error _ => isFalse (by intro hc; cases hc)
    | .error _, .ok _ => isFalse (by intro hc; cases hc)

/-! ## Filesystem backend: services/fileAccessService.ts

The filesystem state is a finite map from resolved absolute paths
(segment lists) to contents, together with the set of directories that
have been created. A path is a directory when it was created as one or
when it is a proper segment-prefix of a stored file. -/

/-- Filesystem state: stored files (resolved segment list to content) and
created directories. -/
structure FsState where
  files : List (List Str × Str)
  dirs : List (List Str)
deriving DecidableEq

/-- The empty filesystem. -/
def fsEmpty : FsState := FsState.mk [] []

/-- Whether a resolved path is a directory in the given state. -/
def fsIsDirAt (st : FsState) (key : List Str) : Bool :=
  st.dirs.contains key || st.files.any (fun e => listLeadsStrict key e.1)

/-- Whether anything exists at a resolved path in the given state. -/
def fsExistsAt (st : FsState) (key : List Str) : Bool :=
  (lookupAssoc st.files key).isSome || fsIsDirAt st key

/-- Result of fs.stat in the model. -/
inductive FsStatR where
  | statFile
  | statDir
  | statEnoent
deriving DecidableEq

/-- Models fs.stat on a full path: resolves the path against the working
directory and reports whether a file, a directory or nothing is there. -/
def fsStat (cwd : Str) (st : FsState) (fullPath : Str) : FsStatR :=
  let key := resolveSegs cwd fullPath
  if (lookupAssoc st.files key).isSome then .statFile
  else if fsIsDirAt st key then .statDir
  else .statEnoent

namespace FsBackend

/-- Build the full path to a project data folder.
Source: buildProjectPath, path.join(process.cwd(), "data", project.folder, ...paths). -/
def buildProjectPath (cwd : Str) (project : Project) (paths : List Str) : Str :=
  pathJoin ([cwd, "data".data, project.folder] ++ paths)

/-- Validate that a file path is within the project folder.
Source: validatePathSecurity, path.resolve(filePath).startsWith(projectPath). -/
def validatePathSecurity (cwd : Str) (filePath : Str) (project : Project) : Bool :=
  let projectPath := buildProjectPath cwd project []
  let resolvedPath := pathResolve cwd filePath
  listLeads projectPath resolvedPath

/-- Read a file from the project folder.
Source: readFile - security gate, fs.stat (ENOENT gives FileNotFoundError,
non-file gives PathNotFileError), then fs.readFile. -/
def readFile (cwd : Str) (project : Project) (filePath : Str) (st : FsState) :
    Except FileErr Str :=
  let fullPath := buildProjectPath cwd project [filePath]
  if validatePathSecurity cwd fullPath project = false then .error .accessDenied
  else
    match fsStat cwd st fullPath with
    | .statEnoent => .error .fileNotFound
    | .statDir => .error .pathNotFile
    | .statFile =>
      match lookupAssoc st.files (resolveSegs cwd fullPath) with
      | some content => .ok content
      | none => .error .otherErr

/-- Write content to a file in the project folder, creating parent
directories. Source: writeFile - security gate, fs.mkdir of the parent
with recursive, then fs.writeFile. Creating a directory over a file, or a
file over a directory, is a runtime error (otherErr). -/
def writeFile (cwd : Str) (project : Project) (filePath content : Str) (st : FsState) :
    Except FileErr FsState :=
  let fullPath := buildProjectPath cwd project [filePath]
  if validatePathSecurity cwd fullPath project = false then .error .accessDenied
  else
    let key := resolveSegs cwd fullPath
    let parent := key.dropLast
    if parent.inits.any (fun d => (lookupAssoc st.files d).isSome) then .error .otherErr
    else
      let dirs' := st.dirs ++ parent.inits
      if dirs'.contains key || st.files.any (fun e => listLeadsStrict key e.1) then
        .error .otherErr
      else .ok (FsState.mk (setAssoc st.files key content) dirs')

/-- Delete a file from the project folder.
Source: deleteFile - security gate, fs.stat (same error mapping as
readFile), then fs.unlink. -/
def deleteFile (cwd : Str) (project : Project) (filePath : Str) (st : FsState) :
    Except FileErr FsState :=
  let fullPath := buildProjectPath cwd project [filePath]
  if validatePathSecurity cwd fullPath project = false then .error .accessDenied
  else
    match fsStat cwd st fullPath with
    | .statEnoent => .error .fileNotFound
    | .statDir => .error .pathNotFile
    | .statFile => .ok (FsState.mk (removeAssoc st.files (resolveSegs cwd fullPath)) st.dirs)

/-- Create a read stream for a file. The stream is modelled by the bytes
it will deliver. Source: createReadStream - security gate, fs.stat with
the same error mapping as readFile, then fsSync.createReadStream. -/
def createReadStream (cwd : Str) (project : Project) (filePath : Str) (st : FsState) :
    Except FileErr Str :=
  let fullPath := buildProjectPath cwd project [filePath]
  if validatePathSecurity cwd fullPath project = false then .error .accessDenied
  else
    match fsStat cwd st fullPath with
    | .statEnoent => .error .fileNotFound
    | .statDir => .error .pathNotFile
    | .statFile =>
      match lookupAssoc st.files (resolveSegs cwd fullPath) with
      | some content => .ok content
      | none => .error .otherErr

end FsBackend

/-! ## Object-store backend (S3-compatible storage service) -/

/-- Whether two adjacent dot characters occur anywhere in the string.
Models String.prototype.includes applied with a dot-dot search string. -/
def hasDotDot : Str → Bool
  | [] => false
  | [_] => false
  | a :: b :: t => (a = '.' && b = '.') || hasDotDot (b :: t)

/-- Replace every backslash by a slash. Models the global regex
replacement of backslashes in buildS3Key. -/
def mapSlash (s : Str) : Str :=
  s.map (fun c => if c = bslChar then '/' else c)

/-- Whether the string is free of backslashes. -/
def noBackslash (s : Str) : Bool :=
  s.all (fun c => c ≠ bslChar)

/-- Strip the leading run of dot-dot segments. Models the anchored regex
replacement in buildS3Key, where each stripped dot-dot is followed by a
slash, a backslash or the end of the string. -/
def stripLeadingDotDots : Str → Str
  | a :: b :: rest =>
    if a = '.' ∧ b = '.' then
      match rest with
      | [] => []
      | c :: t =>
        if c = '/' ∨ c = bslChar then stripLeadingDotDots t
        else a :: b :: c :: t
    else a :: b :: rest
  | s => s

/-- Object-store state: a finite map from flat keys to contents. -/
abbrev S3State := List (Str × Str)

namespace S3Backend

/-- Build the S3 object key for a file within a project.
Source: buildS3Key - an empty path yields the bare project prefix;
otherwise normalize, strip leading dot-dot segments, prepend the folder
and turn backslashes into slashes. -/
def buildS3Key (project : Project) (filePath : Str) : Str :=
  if filePath = [] then project.folder ++ ['/']
  else
    let normalizedPath := stripLeadingDotDots (pathNormalize filePath)
    mapSlash (project.folder ++ '/' :: normalizedPath)

/-- Validate that a file path has no directory traversal.
Source: validatePathSecurity - normalize, then reject when the result
still contains two adjacent dots or is absolute. -/
def validatePathSecurity (filePath : Str) : Bool :=
  let normalized := pathNormalize filePath
  !hasDotDot normalized && !isAbsoluteStr normalized

/-- Read a file from the object store.
Source: readFile - security gate, GetObject; a missing key raises
FileNotFoundError. -/
def readFile (project : Project) (filePath : Str) (st : S3State) : Except FileErr Str :=
  if validatePathSecurity filePath = false then .error .accessDenied
  else
    match lookupAssoc st (buildS3Key project filePath) with
    | none => .error .fileNotFound
    | some content => .ok content

/-- Write content to a file in the object store.
Source: writeFile - security gate, then PutObject, which always creates
or overwrites. -/
def writeFile (project : Project) (filePath content : Str) (st : S3State) :
    Except FileErr S3State :=
  if validatePathSecurity filePath = false then .error .accessDenied
  else .ok (setAssoc st (buildS3Key project filePath) content)

/-- Delete a file from the object store.
Source: deleteFile - security gate, HeadObject (a missing key raises
FileNotFoundError), then DeleteObject. -/
def deleteFile (project : Project) (filePath : Str) (st : S3State) :
    Except FileErr S3State :=
  if validatePathSecurity filePath = false then .error .accessDenied
  else
    match lookupAssoc st (buildS3Key project filePath) with
    | none => .error .fileNotFound
    | some _ => .ok (removeAssoc st (buildS3Key project filePath))

/-- Create a read stream for a file in the object store, modelled by the
bytes it delivers. Source: createReadStream - same behavior as readFile. -/
def createReadStream (project : Project) (filePath : Str) (st : S3State) :
    Except FileErr Str :=
  if validatePathSecurity filePath = false then .error .accessDenied
  else
    match lookupAssoc st (buildS3Key project filePath) with
    | none => .error .fileNotFound
    | some content => .ok content

end S3Backend

/-! ## Project service: folder-name generation -/

/-- The decimal digit character for a value below ten. -/
def digitChar (d : Nat) : Char := Char.ofNat (48 + d)

/-- Fuel-indexed decimal printer; with fuel at least the number itself
the recursion always bottoms out, and exhausted fuel can only be reached
for a single-digit value, which it prints correctly. -/
def natToDecFuel : Nat → Nat → Str
  | 0, n => [digitChar n]
  | fuel + 1, n =>
    if n < 10 then [digitChar n]
    else natToDecFuel fuel (n / 10) ++ [digitChar (n % 10)]

/-- Decimal representation of a natural number, most significant digit
first. Models the JavaScript number-to-string conversion used by the
template literal in generateUniqueFolderName. -/
def natToDec (n : Nat) : Str :=
  natToDecFuel n n

/-- Whether a character survives slugification: a lowercase ASCII letter
or a digit. -/
def isSlugChar (c : Char) : Bool :=
  ('a' ≤ c && c ≤ 'z') || ('0' ≤ c && c ≤ '9')

/-- Replace every maximal run of non-slug characters by one hyphen. The
flag records whether the scanner is inside such a run. Models the global
regex replacement in generateUniqueFolderName. -/
def collapseRuns (inRun : Bool) : Str → Str
  | [] => []
  | c :: t =>
    if isSlugChar c then c :: collapseRuns false t
    else if inRun then collapseRuns true t
    else '-' :: collapseRuns true t

/-- Drop leading and trailing hyphen runs. Models the anchored regex
replacement in generateUniqueFolderName. -/
def trimDashes (s : Str) : Str :=
  ((s.dropWhile (fun c => c = '-')).reverse.dropWhile (fun c => c = '-')).reverse

/-- Lowercase an ASCII letter; the project names of interest are ASCII. -/
def lowerChar (c : Char) : Char := c.toLower

namespace DbService

/-- The slugified base folder for a project name.
Source: generateUniqueFolderName, the three chained string operations on
name before the collision loop. -/
def slugify (name : Str) : Str :=
  trimDashes (collapseRuns false (name.map lowerChar))

/-- Whether a folder name is already taken. Source: folderExists, a COUNT
query over the projects table; the table is modelled by the list of
existing folder names. -/
def folderExists (taken : List Str) (folder : Str) : Bool :=
  decide (folder ∈ taken)

/-- The candidate folder name for a collision counter. Source: the
template literal joining the base folder, a hyphen and the counter. -/
def candidateName (base : Str) (counter : Nat) : Str :=
  base ++ '-' :: natToDec counter

/-- The collision loop of generateUniqueFolderName, with explicit fuel.
The caller passes enough fuel for the loop to reach a free candidate. -/
def genLoop (fuel : Nat) (taken : List Str) (base : Str) (counter : Nat) : Str :=
  match fuel with
  | 0 => candidateName base counter
  | f + 1 =>
    if folderExists taken (candidateName base counter) then genLoop f taken base (counter + 1)
    else candidateName base counter

/-- Generate a unique folder name based on the project name.
Source: generateUniqueFolderName - return the slug when it is free, else
try base-1, base-2, ... until a free name is found. One more unit of fuel
than there are existing folders always suffices. -/
def generateUniqueFolderName (taken : List Str) (name : Str) : Str :=
  let baseFolder := slugify name
  if folderExists taken baseFolder = false then baseFolder
  else genLoop (taken.length + 1) taken baseFolder 1

end DbService

/-! ## Middleware: fileLoader.ts -/

/-- Find the first index at which the pattern occurs as a contiguous
substring. Models String.prototype.indexOf, the search step of
String.prototype.replace with a string pattern. -/
def indexOfSub : Str → Str → Option Nat
  | s, pat =>
    if listLeads pat s then some 0
    else
      match s with
      | [] => none
      | _ :: t => (indexOfSub t pat).map (fun i => i + 1)

/-- ECMAScript GetSubstitution for a replacement string and a pattern with
no capture groups: dollar-dollar inserts one dollar, dollar-ampersand the
matched text, dollar-backquote the text before the match, dollar-quote the
text after the match; everything else is copied. -/
def getSubstitution (rep matched before after : Str) : Str :=
  match rep with
  | [] => []
  | '$' :: '$' :: t => '$' :: getSubstitution t matched before after
  | '$' :: '&' :: t => matched ++ getSubstitution t matched before after
  | '$' :: c :: t =>
    if c = backqChar then before ++ getSubstitution t matched before after
    else if c = squoteChar then after ++ getSubstitution t matched before after
    else '$' :: c :: getSubstitution t matched before after
  | c :: t => c :: getSubstitution t matched before after

/-- Models String.prototype.replace with a string pattern and a string
replacement: only the first occurrence is replaced and the replacement
undergoes GetSubstitution. -/
def jsReplaceFirst (s pat rep : Str) : Str :=
  match indexOfSub s pat with
  | none => s
  | some i =>
    s.take i ++ getSubstitution rep pat (s.take i) (s.drop (i + pat.length)) ++
      s.drop (i + pat.length)

/-- Whether a character matches the regex word class: ASCII letter, digit
or underscore. -/
def isWordChar (c : Char) : Bool :=
  ('a' ≤ c && c ≤ 'z') || ('A' ≤ c && c ≤ 'Z') || ('0' ≤ c && c ≤ '9') || c = '_'

/-- Try to match a double-brace placeholder at the start of the string,
returning the identifier and the rest after the closing braces. The
identifier is the maximal nonempty word run, as the regex engine takes it. -/
def matchPH (s : Str) : Option (Str × Str) :=
  match s with
  | c1 :: c2 :: t =>
    if c1 = lbraceChar ∧ c2 = lbraceChar then
      let w := t.takeWhile isWordChar
      let r := t.dropWhile isWordChar
      if w = [] then none
      else
        match r with
        | d1 :: d2 :: r2 => if d1 = rbraceChar ∧ d2 = rbraceChar then some (w, r2) else none
        | _ => none
    else none
  | _ => none

theorem dropWhile_length_le {α : Type} (p : α → Bool) (l : List α) :
    (l.dropWhile p).length ≤ l.length := by
  induction l with
  | nil => simp [List.dropWhile]
  | cons a t ih =>
    by_cases hp : p a
    · simp only [List.dropWhile, hp]
      simpa using Nat.le_succ_of_le ih
    · simp [List.dropWhile, hp]

theorem matchPH_rest_lt (s w r : Str) (h : matchPH s = some (w, r)) :
    r.length < s.length := by
  match s with
  | [] => simp [matchPH] at h
  | [c] => simp [matchPH] at h
  | c1 :: c2 :: t =>
    have hlen := dropWhile_length_le isWordChar t
    simp only [matchPH] at h
    by_cases hb : c1 = lbraceChar ∧ c2 = lbraceChar
    · rw [if_pos hb] at h
      by_cases hw : t.takeWhile isWordChar = []
      · simp [hw] at h
      · rw [if_neg hw] at h
        cases hd : t.dropWhile isWordChar with
        | nil => rw [hd] at h; simp at h
        | cons d1 rest =>
          cases rest with
          | nil => rw [hd] at h; simp at h
          | cons d2 r2 =>
            rw [hd] at h
            dsimp only at h
            by_cases hbr : d1 = rbraceChar ∧ d2 = rbraceChar
            · rw [if_pos hbr] at h
              simp only [Option.some.injEq, Prod.mk.injEq] at h
              obtain ⟨-, hr⟩ := h
              rw [hd] at hlen
              subst hr
              simp only [List.length_cons] at hlen ⊢
              omega
            · rw [if_neg hbr] at h; simp at h
    · rw [if_neg hb] at h; simp at h

/-- Fuel-indexed scanner for the global double-brace placeholder
replacement: at each position try the placeholder match, replace it by
the callback result and continue after it, otherwise copy one character.
One unit of fuel per step; fuel at least the string length suffices,
since every step consumes at least one character. -/
def jsPlaceholderReplaceAllFuel (f : Str → Str) : Nat → Str → Str
  | 0, s => s
  | _ + 1, [] => []
  | fuel + 1, c :: t =>
    match matchPH (c :: t) with
    | some (w, r) => f w ++ jsPlaceholderReplaceAllFuel f fuel r
    | none => c :: jsPlaceholderReplaceAllFuel f fuel t

/-- Models String.prototype.replace with the global double-brace
placeholder regex and a callback: scan left to right, replace each
placeholder by the callback result, and never rescan inserted text. -/
def jsPlaceholderReplaceAll (f : Str → Str) (s : Str) : Str :=
  jsPlaceholderReplaceAllFuel f s.length s

/-- The hexadecimal digit character for a value below sixteen. -/
def hexDigitChar (d : Nat) : Char :=
  if d < 10 then Char.ofNat (48 + d) else Char.ofNat (97 + d - 10)

/-- JSON escape of one character, as JSON.stringify produces it. -/
def jsonEscapeChar (c : Char) : Str :=
  if c = dquoteChar then [bslChar, dquoteChar]
  else if c = bslChar then [bslChar, bslChar]
  else if c = Char.ofNat 10 then [bslChar, 'n']
  else if c = Char.ofNat 13 then [bslChar, 'r']
  else if c = Char.ofNat 9 then [bslChar, 't']
  else if c = Char.ofNat 8 then [bslChar, 'b']
  else if c = Char.ofNat 12 then [bslChar, 'f']
  else if c.toNat < 32 then
    [bslChar, 'u', '0', '0', hexDigitChar (c.toNat / 16), hexDigitChar (c.toNat % 16)]
  else [c]

/-- JSON.stringify of a string value. -/
def jsonString (s : Str) : Str :=
  dquoteChar :: (s.flatMap jsonEscapeChar) ++ [dquoteChar]

/-- JSON.stringify of an array of strings. -/
def jsonStringArray (l : List Str) : Str :=
  '[' :: List.intercalate [','] (l.map jsonString) ++ [']']

namespace Middleware

/-- The word-character method names that the JavaScript in-operator finds
on every plain object through its Object.prototype: for these the
callback reads an inherited function value, JSON.stringify of a function
is the undefined value, and the replacement coerces it to the literal
text undefined. -/
def protoObjectMethods : List Str :=
  ["constructor".data, "hasOwnProperty".data, "isPrototypeOf".data,
    "propertyIsEnumerable".data, "toLocaleString".data, "toString".data, "valueOf".data,
    "__defineGetter__".data, "__defineSetter__".data,
    "__lookupGetter__".data, "__lookupSetter__".data]

/-- The substitution value for a placeholder identifier against a
Project. Models the callback of the placeholder replacement, including
the JavaScript in-operator walking the prototype chain: an identifier
naming one of the five own attributes yields the attribute value,
strings verbatim and other values JSON-encoded; an identifier naming a
method inherited from Object.prototype yields the literal text
undefined (the callback returns JSON.stringify of a function, the
undefined value, which the replacement coerces to its string form); the
proto accessor yields the JSON encoding of the plain object prototype;
any other identifier yields the empty string. The project objects of
the service are plain records with own attributes id, name, color,
folder and hosts. -/
def projectVar (project : Project) (v : Str) : Str :=
  if v = "id".data then natToDec project.id
  else if v = "name".data then project.name
  else if v = "color".data then project.color
  else if v = "folder".data then project.folder
  else if v = "hosts".data then jsonStringArray project.hosts
  else if v ∈ protoObjectMethods then "undefined".data
  else if v = "__proto__".data then [lbraceChar, rbraceChar]
  else []

/-- The literal content placeholder searched in the layout. -/
def contentPlaceholder : Str :=
  [lbraceChar, lbraceChar, 'c', 'o', 'n', 't', 'e', 'n', 't', rbraceChar, rbraceChar]

/-- The layout file name. -/
def layoutFile : Str := "_layout.html".data

/-- Render a page through the layout.
Source: fileLoader - layoutContent.replace of the content placeholder
with the file content, then the global placeholder replacement from the
project attributes. -/
def renderLayout (layoutContent fileContent : Str) (project : Project) : Str :=
  let renderedContent := jsReplaceFirst layoutContent contentPlaceholder fileContent
  jsPlaceholderReplaceAll (projectVar project) renderedContent

/-- The observable outcome of the fileLoader middleware. -/
inductive Response where
  | httpStatus (code : Nat)
  | next
  | streamOk (contentType : Str) (body : Str)
  | htmlBody (body : Str)
deriving DecidableEq

/-- A storage backend as the middleware consumes it: readFile and
createReadStream keyed by project and relative path. The two concrete
backends of the service instantiate this signature. -/
structure Backend where
  readFile : Project → Str → Except FileErr Str
  createReadStream : Project → Str → Except FileErr Str

/-- The requested path computation of fileLoader: the root path maps to
index.html and one leading slash is stripped. -/
def computeRequestedPath (reqPath : Str) : Str :=
  let r := if reqPath = ['/'] then "index.html".data else reqPath
  match r with
  | '/' :: t => t
  | other => other

/-- Models path.extname on the basename after the last slash: the suffix
from the last dot, empty when there is no dot, when the basename is a
bare dot or dot-dot, or when the only dot is the leading one. -/
def extname (p : Str) : Str :=
  let base := (p.reverse.takeWhile (fun c => c ≠ '/')).reverse
  if base = ['.'] ∨ base = ['.', '.'] then []
  else
    let extRev := base.reverse.takeWhile (fun c => c ≠ '.')
    if extRev.length = base.length then []
    else if base.length - extRev.length - 1 = 0 then []
    else '.' :: extRev.reverse

/-- The lowercased extension, as fileLoader computes it. -/
def extnameLower (p : Str) : Str :=
  (extname p).map lowerChar

/-- The html extension literal. -/
def htmlExt : Str := ".html".data

/-- The fallback content type for unknown extensions. -/
def octetStream : Str := "application/octet-stream".data

/-- The fileLoader middleware over an abstract backend and MIME table.
Source: fileLoader - missing project gives 404; the requested path
defaults to index.html and loses its leading slash; non-html paths are
streamed with the looked-up content type; html paths are read, composed
with the optional layout and sent; storage errors map FileNotFoundError
to next(), AccessDeniedError to 403, PathNotFileError to 400 and
anything else to 500; a layout loading error of any kind falls back to
the raw page content. -/
def fileLoader (B : Backend) (mimeOf : Str → Option Str) (reqProject : Option Project)
    (reqPath : Str) : Response :=
  match reqProject with
  | none => .httpStatus 404
  | some project =>
    let requestedPath := computeRequestedPath reqPath
    let ext := extnameLower requestedPath
    if ext ≠ htmlExt then
      match B.createReadStream project requestedPath with
      | .ok body => .streamOk ((mimeOf requestedPath).getD octetStream) body
      | .error .fileNotFound => .next
      | .error .accessDenied => .httpStatus 403
      | .error .pathNotFile => .httpStatus 400
      | .error .otherErr => .httpStatus 500
    else
      match B.readFile project requestedPath with
      | .error .fileNotFound => .next
      | .error .accessDenied => .httpStatus 403
      | .error .pathNotFile => .httpStatus 400
      | .error .otherErr => .httpStatus 500
      | .ok fileContent =>
        match B.readFile project layoutFile with
        | .error _ => .htmlBody fileContent
        | .ok layoutContent => .htmlBody (renderLayout layoutContent fileContent project)

end Middleware

/-! ## Specification-side renderer

The spec describes the rendering as: split the layout at the first
occurrence of the content placeholder, insert the page content, then walk
the remaining placeholders left to right, each replaced from the project
attributes, never rescanning inserted text. These functions follow that
wording; the refinement theorem for the renderer equates them with the
source-side renderLayout. -/

/-- Split a string at the first occurrence of the pattern, returning the
part before and the part after the occurrence. -/
def splitFirstSub (s pat : Str) : Option (Str × Str) :=
  if listLeads pat s then some ([], s.drop pat.length)
  else
    match s with
    | [] => none
    | c :: t => (splitFirstSub t pat).map (fun pr => (c :: pr.1, pr.2))

/-- Spec wording of step three of the renderer: replace the first
occurrence of the content placeholder by the escape-processed page
content. -/
def specReplaceContent (layoutContent fileContent : Str) : Str :=
  match splitFirstSub layoutContent Middleware.contentPlaceholder with
  | none => layoutContent
  | some (pre, post) =>
    pre ++ getSubstitution fileContent Middleware.contentPlaceholder pre post ++ post

/-- Find the first placeholder in a string: the text before it, its
identifier and the text after it. -/
def findPH : Str → Option (Str × Str × Str)
  | [] => none
  | c :: t =>
    match matchPH (c :: t) with
    | some (w, r) => some ([], w, r)
    | none => (findPH t).map (fun pr => (c :: pr.1, pr.2.1, pr.2.2))

theorem findPH_post_lt (s : Str) :
    ∀ pre w post, findPH s = some (pre, w, post) → post.length < s.length := by
  induction s with
  | nil => intro pre w post h; simp [findPH] at h
  | cons c t ih =>
    intro pre w post h
    simp only [findPH] at h
    cases hm : matchPH (c :: t) with
    | some pr =>
      obtain ⟨w2, r2⟩ := pr
      rw [hm] at h
      simp only [Option.some.injEq, Prod.mk.injEq] at h
      obtain ⟨-, -, hr⟩ := h
      subst hr
      exact matchPH_rest_lt _ _ _ hm
    | none =>
      rw [hm] at h
      cases hf : findPH t with
      | none => rw [hf] at h; simp at h
      | some pr =>
        obtain ⟨p2, w2, r2⟩ := pr
        rw [hf] at h
        simp only [Option.map_some', Option.some.injEq, Prod.mk.injEq] at h
        obtain ⟨-, -, hr⟩ := h
        subst hr
        have := ih p2 w2 r2 hf
        simp only [List.length_cons]
        omega

/-- Spec wording of step four of the renderer: repeatedly take the first
remaining placeholder, substitute its value and continue with the text
after it only. -/
def specPass (f : Str → Str) (s : Str) : Str :=
  match h : findPH s with
  | none => s
  | some (pre, w, post) => pre ++ f w ++ specPass f post
termination_by s.length
decreasing_by
  exact findPH_post_lt _ _ _ _ h

/-- The renderer as the spec words it. -/
def specRender (layoutContent fileContent : Str) (project : Project) : Str :=
  specPass (Middleware.projectVar project) (specReplaceContent layoutContent fileContent)

/-! ## Concrete fixtures used by counterexamples and witnesses -/

/-- A working directory used in concrete evaluations. -/
def cwd0 : Str := "/app".data

/-- A project with folder demo. -/
def projDemo : Project := Project.mk 1 "Demo".data "#fff".data "demo".data ["demo.example".data]

/-- A project with folder foo, whose sibling folder foobar extends it as a
string. -/
def projFoo : Project := Project.mk 2 "Foo".data "#000".data "foo".data []

/-! ## Claim C1 -/

/--
C1, counterexample: the relative path a/../b contains a dot-dot segment,
yet the object-store validatePathSecurity accepts it and the filesystem
readFile does not raise AccessDenied for it (on an empty filesystem it
reaches the existence check and fails with FileNotFound instead).
-/
theorem c1_counterexample :
    S3Backend.validatePathSecurity ("a/../b".data) = true ∧
    FsBackend.readFile cwd0 projDemo ("a/../b".data) fsEmpty =
      Except.error FileErr.fileNotFound := by
  constructor
  · decide
  · decide

/--
C1 (amended): the object-store validatePathSecurity returns false exactly
when the normalized path still contains two adjacent dots or is absolute,
and the filesystem operations readFile, writeFile, deleteFile and
createReadStream raise AccessDenied exactly when the caller path, joined
under the project root and resolved, does not start with the project root
as a string prefix. Dot-dot segments that normalize away inside the
project, and absolute prefixes that the join neutralizes, are accepted.
-/
theorem c1_pathSecurity_amended (p cwd content : Str) (project : Project) (st : FsState) :
    (S3Backend.validatePathSecurity p = false ↔
      (hasDotDot (pathNormalize p) = true ∨ isAbsoluteStr (pathNormalize p) = true))
    ∧ (FsBackend.readFile cwd project p st = Except.error FileErr.accessDenied ↔
      FsBackend.validatePathSecurity cwd (FsBackend.buildProjectPath cwd project [p]) project
        = false)
    ∧ (FsBackend.writeFile cwd project p content st = Except.error FileErr.accessDenied ↔
      FsBackend.validatePathSecurity cwd (FsBackend.buildProjectPath cwd project [p]) project
        = false)
    ∧ (FsBackend.deleteFile cwd project p st = Except.error FileErr.accessDenied ↔
      FsBackend.validatePathSecurity cwd (FsBackend.buildProjectPath cwd project [p]) project
        = false)
    ∧ (FsBackend.createReadStream cwd project p st = Except.error FileErr.accessDenied ↔
      FsBackend.validatePathSecurity cwd (FsBackend.buildProjectPath cwd project [p]) project
        = false) := by
  refine ⟨?_, ?_, ?_, ?_, ?_⟩
  · unfold S3Backend.validatePathSecurity
    cases h1 : hasDotDot (pathNormalize p) <;>
      cases h2 : isAbsoluteStr (pathNormalize p) <;> simp [h1, h2]
  · unfold FsBackend.readFile
    dsimp only
    split
    · rename_i hg; simp [hg]
    · rename_i hg
      simp only [Bool.not_eq_false] at hg
      rw [hg]
      constructor
      · intro h
        exfalso
        split at h
        · simp at h
        · simp at h
        · split at h
          · simp at h
          · simp at h
      · intro h; simp at h
  · unfold FsBackend.writeFile
    dsimp only
    split
    · rename_i hg; simp [hg]
    · rename_i hg
      simp only [Bool.not_eq_false] at hg
      rw [hg]
      constructor
      · intro h
        exfalso
        split at h
        · simp at h
        · split at h <;> simp_all
      · intro h; simp at h
  · unfold FsBackend.deleteFile
    dsimp only
    split
    · rename_i hg; simp [hg]
    · rename_i hg
      simp only [Bool.not_eq_false] at hg
      rw [hg]
      constructor
      · intro h
        exfalso
        split at h <;> simp_all
      · intro h; simp at h
  · unfold FsBackend.createReadStream
    dsimp only
    split
    · rename_i hg; simp [hg]
    · rename_i hg
      simp only [Bool.not_eq_false] at hg
      rw [hg]
      constructor
      · intro h
        exfalso
        split at h
        · simp at h
        · simp at h
        · split at h
          · simp at h
          · simp at h
      · intro h; simp at h

/-! ## Claim C2 -/

/--
C2, evaluation at the failing input: for a project with namespace root
/app/data/foo, the caller path ../foobar/x resolves to /app/data/foobar/x,
outside the project namespace, yet validatePathSecurity accepts it
because the check is a plain string-prefix test, and readFile then serves
the content of the sibling project file. The specification requires the
canonical root to be a path-component prefix, which would reject this.
-/
theorem c2_string_prefix_escape :
    FsBackend.validatePathSecurity cwd0
        (FsBackend.buildProjectPath cwd0 projFoo ["../foobar/x".data]) projFoo = true ∧
    FsBackend.readFile cwd0 projFoo ("../foobar/x".data)
        (FsState.mk [(["app".data, "data".data, "foobar".data, "x".data], "secret".data)] [])
      = Except.ok ("secret".data) := by
  constructor
  · decide
  · decide

/-! ## Claim C3 -/

/--
C3: write followed by read returns exactly the written content, on both
backends. On the filesystem backend the hypothesis is that writeFile
succeeded (its security gate passed and no directory collided with the
target); on the object store the hypothesis is that writeFile succeeded,
which holds exactly when the path passes path security.
-/
theorem c3_write_read_roundtrip (cwd p content : Str) (project : Project)
    (st st' : FsState) (s3st s3st' : S3State)
    (hfs : FsBackend.writeFile cwd project p content st = Except.ok st')
    (hs3 : S3Backend.writeFile project p content s3st = Except.ok s3st') :
    FsBackend.readFile cwd project p st' = Except.ok content ∧
    S3Backend.readFile project p s3st' = Except.ok content := by
  constructor
  · unfold FsBackend.writeFile at hfs
    dsimp only at hfs
    split at hfs
    · simp at hfs
    · rename_i hg
      simp only [Bool.not_eq_false] at hg
      split at hfs
      · simp at hfs
      · split at hfs
        · simp at hfs
        · simp only [Except.ok.injEq] at hfs
          unfold FsBackend.readFile
          dsimp only
          rw [hg]
          simp only [Bool.true_eq_false, if_false]
          have hlook :
              lookupAssoc st'.files
                (resolveSegs cwd (FsBackend.buildProjectPath cwd project [p]))
                = some content := by
            rw [← hfs]
            exact lookupAssoc_setAssoc_self ..
          unfold fsStat
          rw [hlook]
          simp [hlook]
  · unfold S3Backend.writeFile at hs3
    split at hs3
    · simp at hs3
    · rename_i hg
      simp only [Bool.not_eq_false] at hg
      simp only [Except.ok.injEq] at hs3
      unfold S3Backend.readFile
      rw [hg]
      simp only [Bool.true_eq_false, if_false]
      rw [← hs3, lookupAssoc_setAssoc_self]

/-- The post-write filesystem state used by the round-trip witness. -/
def stWrite1 : FsState :=
  FsState.mk
    [(["app".data, "data".data, "demo".data, "notes".data, "a.txt".data], "hi".data)]
    [[], ["app".data], ["app".data, "data".data], ["app".data, "data".data, "demo".data],
      ["app".data, "data".data, "demo".data, "notes".data]]

/-- The post-write object-store state used by the round-trip witness. -/
def s3Write1 : S3State := [("demo/notes/a.txt".data, "hi".data)]

/--
C3, witness: writing notes/a.txt with content hi succeeds on both
backends from the empty state, and reading it back returns hi.
-/
theorem c3_write_read_roundtrip_witness :
    (FsBackend.writeFile cwd0 projDemo ("notes/a.txt".data) ("hi".data) fsEmpty
        = Except.ok stWrite1) ∧
    (S3Backend.writeFile projDemo ("notes/a.txt".data) ("hi".data) [] = Except.ok s3Write1) ∧
    (FsBackend.readFile cwd0 projDemo ("notes/a.txt".data) stWrite1 = Except.ok ("hi".data) ∧
      S3Backend.readFile projDemo ("notes/a.txt".data) s3Write1 = Except.ok ("hi".data)) :=
  ⟨by decide, by decide,
    c3_write_read_roundtrip cwd0 ("notes/a.txt".data) ("hi".data) projDemo fsEmpty stWrite1
      [] s3Write1 (by decide) (by decide)⟩

/-! ## Claim C4 -/

theorem s3ReadFacts (project : Project) (p : Str) (s3st : S3State) :
    (S3Backend.readFile project p s3st = Except.error FileErr.accessDenied ↔
      S3Backend.validatePathSecurity p = false)
    ∧ (S3Backend.validatePathSecurity p = true →
      (S3Backend.readFile project p s3st = Except.error FileErr.fileNotFound ↔
        lookupAssoc s3st (S3Backend.buildS3Key project p) = none))
    ∧ (S3Backend.readFile project p s3st ≠ Except.error FileErr.pathNotFile)
    ∧ (S3Backend.validatePathSecurity p = true →
      ∀ c, lookupAssoc s3st (S3Backend.buildS3Key project p) = some c →
        S3Backend.readFile project p s3st = Except.ok c) := by
  by_cases hv : S3Backend.validatePathSecurity p = false
  · simp [S3Backend.readFile, hv]
  · have hv' : S3Backend.validatePathSecurity p = true := by simpa using hv
    cases hl : lookupAssoc s3st (S3Backend.buildS3Key project p) with
    | none => simp [S3Backend.readFile, hv', hl]
    | some c => simp [S3Backend.readFile, hv', hl]

/--
C4: on both backends, readFile fails with AccessDenied exactly when path
security rejects; otherwise it fails with FileNotFound exactly when
nothing exists at the resolved location; otherwise it fails with
PathNotFile exactly when the location exists but is a directory, which
only the filesystem backend has; otherwise it returns the stored content.
The filesystem hypothesis rules out the unreachable state in which the
same resolved path is both a stored file and a directory.
-/
theorem c4_readFile_taxonomy (cwd p : Str) (project : Project) (st : FsState) (s3st : S3State)
    (hwf : ((lookupAssoc st.files
        (resolveSegs cwd (FsBackend.buildProjectPath cwd project [p]))).isSome
      && fsIsDirAt st (resolveSegs cwd (FsBackend.buildProjectPath cwd project [p]))) = false) :
    (FsBackend.readFile cwd project p st = Except.error FileErr.accessDenied ↔
      FsBackend.validatePathSecurity cwd (FsBackend.buildProjectPath cwd project [p]) project
        = false)
    ∧ (FsBackend.validatePathSecurity cwd (FsBackend.buildProjectPath cwd project [p]) project
        = true →
      (FsBackend.readFile cwd project p st = Except.error FileErr.fileNotFound ↔
        fsExistsAt st (resolveSegs cwd (FsBackend.buildProjectPath cwd project [p])) = false))
    ∧ (FsBackend.validatePathSecurity cwd (FsBackend.buildProjectPath cwd project [p]) project
        = true →
      (FsBackend.readFile cwd project p st = Except.error FileErr.pathNotFile ↔
        (fsExistsAt st (resolveSegs cwd (FsBackend.buildProjectPath cwd project [p])) = true ∧
          fsIsDirAt st (resolveSegs cwd (FsBackend.buildProjectPath cwd project [p])) = true)))
    ∧ (FsBackend.validatePathSecurity cwd (FsBackend.buildProjectPath cwd project [p]) project
        = true →
      ∀ c, lookupAssoc st.files (resolveSegs cwd (FsBackend.buildProjectPath cwd project [p]))
          = some c →
        FsBackend.readFile cwd project p st = Except.ok c)
    ∧ (S3Backend.readFile project p s3st = Except.error FileErr.accessDenied ↔
      S3Backend.validatePathSecurity p = false)
    ∧ (S3Backend.validatePathSecurity p = true →
      (S3Backend.readFile project p s3st = Except.error FileErr.fileNotFound ↔
        lookupAssoc s3st (S3Backend.buildS3Key project p) = none))
    ∧ (S3Backend.readFile project p s3st ≠ Except.error FileErr.pathNotFile)
    ∧ (S3Backend.validatePathSecurity p = true →
      ∀ c, lookupAssoc s3st (S3Backend.buildS3Key project p) = some c →
        S3Backend.readFile project p s3st = Except.ok c) := by
  obtain ⟨s1, s2, s3, s4⟩ := s3ReadFacts project p s3st
  by_cases hg : FsBackend.validatePathSecurity cwd
      (FsBackend.buildProjectPath cwd project [p]) project = false
  · exact ⟨by simp [FsBackend.readFile, hg], by simp [hg], by simp [hg], by simp [hg],
      s1, s2, s3, s4⟩
  · have hg' : FsBackend.validatePathSecurity cwd
        (FsBackend.buildProjectPath cwd project [p]) project = true := by
      simpa using hg
    cases hlook : lookupAssoc st.files
        (resolveSegs cwd (FsBackend.buildProjectPath cwd project [p])) with
    | some c0 =>
      have hdir : fsIsDirAt st
          (resolveSegs cwd (FsBackend.buildProjectPath cwd project [p])) = false := by
        rw [hlook] at hwf; simpa using hwf
      have hread : FsBackend.readFile cwd project p st = Except.ok c0 := by
        simp [FsBackend.readFile, hg', fsStat, hlook]
      refine ⟨by simp [hread, hg'], ?_, ?_, ?_, s1, s2, s3, s4⟩
      · intro _; simp [hread, fsExistsAt, hlook]
      · intro _; simp [hread, hdir]
      · intro _ c hc
        simp only [Option.some.injEq] at hc
        rw [hread, hc]
    | none =>
      cases hdir : fsIsDirAt st
          (resolveSegs cwd (FsBackend.buildProjectPath cwd project [p])) with
      | true =>
        have hread : FsBackend.readFile cwd project p st
            = Except.error FileErr.pathNotFile := by
          simp [FsBackend.readFile, hg', fsStat, hlook, hdir]
        refine ⟨by simp [hread, hg'], ?_, ?_, ?_, s1, s2, s3, s4⟩
        · intro _; simp [hread, fsExistsAt, hlook, hdir]
        · intro _; simp [hread, fsExistsAt, hlook, hdir]
        · intro _ c hc; simp at hc
      | false =>
        have hread : FsBackend.readFile cwd project p st
            = Except.error FileErr.fileNotFound := by
          simp [FsBackend.readFile, hg', fsStat, hlook, hdir]
        refine ⟨by simp [hread, hg'], ?_, ?_, ?_, s1, s2, s3, s4⟩
        · intro _; simp [hread, fsExistsAt, hlook, hdir]
        · intro _; simp [hread, fsExistsAt, hlook, hdir]
        · intro _ c hc; simp at hc

/-- A filesystem state holding the demo index page. -/
def stIndex : FsState :=
  FsState.mk [(["app".data, "data".data, "demo".data, "index.html".data], "hello".data)] []

/-- An object-store state holding the demo index page. -/
def s3Index : S3State := [("demo/index.html".data, "hello".data)]

/--
C4, witness: with the demo index page stored on both backends, readFile
returns its content through the taxonomy theorem.
-/
theorem c4_readFile_taxonomy_witness :
    FsBackend.readFile cwd0 projDemo ("index.html".data) stIndex = Except.ok ("hello".data) ∧
    S3Backend.readFile projDemo ("index.html".data) s3Index = Except.ok ("hello".data) := by
  obtain ⟨-, -, -, h4, -, -, -, h8⟩ :=
    c4_readFile_taxonomy cwd0 ("index.html".data) projDemo stIndex s3Index (by decide)
  exact ⟨h4 (by decide) ("hello".data) (by decide), h8 (by decide) ("hello".data) (by decide)⟩

/-! ## Claim C5 -/

/--
C5: for a non-HTML request with a resolved project, a FileNotFound error
from the storage backend passes control to the next handler, AccessDenied
yields 403, PathNotFile yields 400 and any other backend error yields 500.
-/
theorem c5_nonHtml_error_mapping (B : Middleware.Backend) (mimeOf : Str → Option Str)
    (project : Project) (reqPath : Str) (e : FileErr)
    (hext : Middleware.extnameLower (Middleware.computeRequestedPath reqPath)
      ≠ Middleware.htmlExt)
    (hstream : B.createReadStream project (Middleware.computeRequestedPath reqPath)
      = Except.error e) :
    Middleware.fileLoader B mimeOf (some project) reqPath =
      (match e with
        | FileErr.fileNotFound => Middleware.Response.next
        | FileErr.accessDenied => Middleware.Response.httpStatus 403
        | FileErr.pathNotFile => Middleware.Response.httpStatus 400
        | FileErr.otherErr => Middleware.Response.httpStatus 500) := by
  unfold Middleware.fileLoader
  dsimp only
  rw [if_pos hext]
  cases e <;> simp [hstream]

/-- A backend whose stream operation always reports a non-file path. -/
def backendPathNotFile : Middleware.Backend :=
  Middleware.Backend.mk (fun _ _ => Except.error FileErr.pathNotFile)
    (fun _ _ => Except.error FileErr.pathNotFile)

/--
C5, witness: requesting style.css against a backend that reports
PathNotFile produces the 400 response.
-/
theorem c5_nonHtml_error_mapping_witness :
    Middleware.fileLoader backendPathNotFile (fun _ => none) (some projDemo)
      ("/style.css".data) = Middleware.Response.httpStatus 400 :=
  c5_nonHtml_error_mapping backendPathNotFile (fun _ => none) projDemo
    ("/style.css".data) FileErr.pathNotFile (by decide) rfl

/-! ## Claim C6 -/

/--
C6: for an HTML page that reads successfully, any failure to load the
layout file, FileNotFound or otherwise, leaves the response body equal to
the page content unmodified.
-/
theorem c6_layout_fallback (B : Middleware.Backend) (mimeOf : Str → Option Str)
    (project : Project) (reqPath content : Str) (e : FileErr)
    (hext : Middleware.extnameLower (Middleware.computeRequestedPath reqPath)
      = Middleware.htmlExt)
    (hread : B.readFile project (Middleware.computeRequestedPath reqPath)
      = Except.ok content)
    (hlayout : B.readFile project Middleware.layoutFile = Except.error e) :
    Middleware.fileLoader B mimeOf (some project) reqPath =
      Middleware.Response.htmlBody content := by
  unfold Middleware.fileLoader
  dsimp only
  rw [if_neg (by simp [hext]), hread, hlayout]

/-- A backend holding only the index page, with no layout. -/
def backendNoLayout : Middleware.Backend :=
  Middleware.Backend.mk
    (fun _ p => if p = "index.html".data then Except.ok ("hello".data)
      else Except.error FileErr.fileNotFound)
    (fun _ _ => Except.error FileErr.otherErr)

/--
C6, witness: requesting the root of a project without a layout returns
the index page content unmodified.
-/
theorem c6_layout_fallback_witness :
    Middleware.fileLoader backendNoLayout (fun _ => none) (some projDemo) ("/".data) =
      Middleware.Response.htmlBody ("hello".data) :=
  c6_layout_fallback backendNoLayout (fun _ => none) projDemo ("/".data) ("hello".data)
    FileErr.fileNotFound (by decide) (by decide) (by decide)

/-! ## Claim C7 -/

theorem splitFirstSub_eq_indexOfSub (pat : Str) : ∀ s : Str,
    splitFirstSub s pat =
      (indexOfSub s pat).map (fun i => (s.take i, s.drop (i + pat.length))) := by
  intro s
  induction s with
  | nil =>
    by_cases hp : listLeads pat [] = true
    · simp [splitFirstSub, indexOfSub, hp]
    · simp [splitFirstSub, indexOfSub, hp]
  | cons c t ih =>
    by_cases hp : listLeads pat (c :: t) = true
    · simp [splitFirstSub, indexOfSub, hp]
    · simp only [splitFirstSub, indexOfSub, hp, if_false]
      rw [ih]
      cases hi : indexOfSub t pat with
      | none => simp
      | some i =>
        simp only [Option.map_some', Option.map_map]
        simp [List.take_succ_cons, List.drop_succ_cons, Nat.add_right_comm]

theorem jsReplaceFirst_eq_split (s pat rep : Str) :
    jsReplaceFirst s pat rep =
      match splitFirstSub s pat with
      | none => s
      | some (pre, post) => pre ++ getSubstitution rep pat pre post ++ post := by
  unfold jsReplaceFirst
  rw [splitFirstSub_eq_indexOfSub]
  cases h : indexOfSub s pat with
  | none => rfl
  | some i => rfl

theorem specPass_unfold (f : Str → Str) (s : Str) :
    specPass f s =
      match findPH s with
      | none => s
      | some (pre, w, post) => pre ++ f w ++ specPass f post := by
  rw [specPass]
  cases h : findPH s with
  | none => simp [h]
  | some pr =>
    obtain ⟨pre, w, post⟩ := pr
    simp [h]

theorem fuelPass_eq_specPass (f : Str → Str) : ∀ (fuel : Nat) (s : Str),
    s.length ≤ fuel → jsPlaceholderReplaceAllFuel f fuel s = specPass f s := by
  intro fuel
  induction fuel with
  | zero =>
    intro s hs
    have hnil : s = [] := by cases s with | nil => rfl | cons a b => simp at hs
    subst hnil
    rw [specPass_unfold]
    simp [findPH, jsPlaceholderReplaceAllFuel]
  | succ n ih =>
    intro s hs
    cases s with
    | nil =>
      rw [specPass_unfold]
      simp [findPH, jsPlaceholderReplaceAllFuel]
    | cons c t =>
      simp only [jsPlaceholderReplaceAllFuel]
      cases hm : matchPH (c :: t) with
      | some pr =>
        obtain ⟨w, r⟩ := pr
        have hfind : findPH (c :: t) = some ([], w, r) := by
          simp [findPH, hm]
        have hr : r.length ≤ n := by
          have := matchPH_rest_lt (c :: t) w r hm
          simp only [List.length_cons] at this hs
          omega
        dsimp only
        rw [specPass_unfold, hfind, ih r hr]
        simp
      | none =>
        dsimp only
        have ht : t.length ≤ n := by
          simp only [List.length_cons] at hs
          omega
        cases hf : findPH t with
        | none =>
          have hfind : findPH (c :: t) = none := by
            simp [findPH, hm, hf]
          rw [specPass_unfold, hfind, ih t ht, specPass_unfold, hf]
        | some pr =>
          obtain ⟨pre, w, post⟩ := pr
          have hfind : findPH (c :: t) = some (c :: pre, w, post) := by
            simp [findPH, hm, hf]
          rw [specPass_unfold, hfind, ih t ht, specPass_unfold, hf]
          simp

theorem placeholderReplaceAll_eq_specPass (f : Str → Str) (s : Str) :
    jsPlaceholderReplaceAll f s = specPass f s :=
  fuelPass_eq_specPass f s.length s (Nat.le_refl _)

/--
C7, counterexample: with layout A-placeholder-B and page content of two
dollar signs, the rendered body is A$B, not the claimed verbatim
insertion A$$B: the JavaScript string replacement interprets dollar
escapes in the replacement text.
-/
theorem c7_counterexample :
    Middleware.renderLayout ("A\x7b\x7bcontent\x7d\x7dB".data) ("$$".data) projDemo
        = "A$B".data ∧
    ("A$B".data : Str) ≠ ("A$$B".data : Str) := by
  constructor
  · decide
  · decide

/--
C7 (amended): when the layout loads, the rendered body replaces the first
occurrence of the content placeholder by the page content processed for
JavaScript replacement-pattern escapes (dollar-dollar, dollar-ampersand,
dollar-backquote, dollar-quote; content without a dollar sign is inserted
verbatim), then replaces every remaining placeholder in one
non-recursive left-to-right pass, never rescanning a substituted value:
an identifier naming a project attribute takes the attribute value
(strings verbatim, other values JSON-encoded); an identifier naming a
method the in-operator finds on the prototype chain, such as toString,
valueOf, constructor or hasOwnProperty, takes the literal text
undefined, and the proto accessor takes the empty JSON object; every
other identifier takes the empty string. The specification-side
renderer encodes exactly that wording.
-/
theorem c7_render_amended (layoutContent fileContent : Str) (project : Project) :
    Middleware.renderLayout layoutContent fileContent project =
      specRender layoutContent fileContent project := by
  unfold Middleware.renderLayout specRender specReplaceContent
  rw [jsReplaceFirst_eq_split]
  cases h : splitFirstSub layoutContent Middleware.contentPlaceholder with
  | none => exact placeholderReplaceAll_eq_specPass ..
  | some pr => exact placeholderReplaceAll_eq_specPass ..

/-! ## Claim C8 -/

theorem natToDecFuel_stable : ∀ (n f1 f2 : Nat), n ≤ f1 → n ≤ f2 →
    natToDecFuel f1 n = natToDecFuel f2 n := by
  intro n
  induction n using Nat.strong_induction_on with
  | _ n ih =>
    intro f1 f2 h1 h2
    match f1, f2 with
    | 0, 0 => rfl
    | 0, f2 + 1 =>
      have hz : n = 0 := Nat.le_zero.mp h1
      subst hz
      simp [natToDecFuel]
    | f1 + 1, 0 =>
      have hz : n = 0 := Nat.le_zero.mp h2
      subst hz
      simp [natToDecFuel]
    | f1 + 1, f2 + 1 =>
      by_cases h10 : n < 10
      · simp [natToDecFuel, h10]
      · simp only [natToDecFuel, h10, if_false]
        have hlt : n / 10 < n := Nat.div_lt_self (by omega) (by omega)
        rw [ih (n / 10) hlt f1 f2 (by omega) (by omega)]

theorem natToDec_unfold (n : Nat) :
    natToDec n = if n < 10 then [digitChar n]
      else natToDec (n / 10) ++ [digitChar (n % 10)] := by
  unfold natToDec
  by_cases h10 : n < 10
  · rw [if_pos h10]
    match n with
    | 0 => rfl
    | m + 1 => simp [natToDecFuel, h10]
  · rw [if_neg h10]
    match n with
    | 0 => omega
    | m + 1 =>
      simp only [natToDecFuel, h10, if_false]
      have hle : (m + 1) / 10 ≤ m := by omega
      rw [natToDecFuel_stable ((m + 1) / 10) m ((m + 1) / 10) hle (Nat.le_refl _)]

theorem digitChar_inj : ∀ a b, a < 10 → b < 10 → digitChar a = digitChar b → a = b := by
  intro a b ha hb h
  interval_cases a <;> interval_cases b <;> revert h <;> decide

theorem natToDec_ne_nil (n : Nat) : natToDec n ≠ [] := by
  rw [natToDec_unfold]
  by_cases h10 : n < 10
  · simp [h10]
  · simp [h10]

theorem natToDec_inj : ∀ m n, natToDec m = natToDec n → m = n := by
  intro m
  induction m using Nat.strong_induction_on with
  | _ m ih =>
    intro n h
    rw [natToDec_unfold m] at h
    rw [natToDec_unfold n] at h
    by_cases hm : m < 10 <;> by_cases hn : n < 10
    · rw [if_pos hm, if_pos hn] at h
      simp only [List.cons.injEq, and_true] at h
      exact digitChar_inj m n hm hn h
    · rw [if_pos hm, if_neg hn] at h
      have hlen := congrArg List.length h
      have hpos : 0 < (natToDec (n / 10)).length :=
        List.length_pos.mpr (natToDec_ne_nil (n / 10))
      simp only [List.length_cons, List.length_append, List.length_nil] at hlen
      omega
    · rw [if_neg hm, if_pos hn] at h
      have hlen := congrArg List.length h
      have hpos : 0 < (natToDec (m / 10)).length :=
        List.length_pos.mpr (natToDec_ne_nil (m / 10))
      simp only [List.length_cons, List.length_append, List.length_nil] at hlen
      omega
    · rw [if_neg hm, if_neg hn] at h
      obtain ⟨h1, h2⟩ := List.append_inj' h rfl
      have hdiv : m / 10 = n / 10 :=
        ih (m / 10) (Nat.div_lt_self (by omega) (by omega)) (n / 10) h1
      simp only [List.cons.injEq, and_true] at h2
      have hmod : m % 10 = n % 10 :=
        digitChar_inj _ _ (Nat.mod_lt _ (by omega)) (Nat.mod_lt _ (by omega)) h2
      omega

theorem candidateName_inj (base : Str) : ∀ m n : Nat,
    DbService.candidateName base m = DbService.candidateName base n → m = n := by
  intro m n h
  unfold DbService.candidateName at h
  have h2 := List.append_cancel_left h
  simp only [List.cons.injEq, true_and] at h2
  exact natToDec_inj m n h2

theorem exists_free_candidate (taken : List Str) (base : Str) :
    ∃ k, 1 ≤ k ∧ k ≤ taken.length + 1 ∧ DbService.candidateName base k ∉ taken := by
  by_contra hc
  push_neg at hc
  have hsub : (Finset.Icc 1 (taken.length + 1)).image (DbService.candidateName base)
      ⊆ taken.toFinset := by
    intro x hx
    simp only [Finset.mem_image, Finset.mem_Icc] at hx
    obtain ⟨k, ⟨hk1, hk2⟩, rfl⟩ := hx
    exact List.mem_toFinset.mpr (hc k hk1 hk2)
  have hcard : ((Finset.Icc 1 (taken.length + 1)).image (DbService.candidateName base)).card
      = taken.length + 1 := by
    rw [Finset.card_image_of_injective _ (fun a b hab => candidateName_inj base a b hab)]
    simp [Nat.card_Icc]
  have hle := Finset.card_le_card hsub
  rw [hcard] at hle
  have := le_trans hle (List.toFinset_card_le taken)
  omega

theorem genLoop_finds (taken : List Str) (base : Str) : ∀ (fuel counter : Nat),
    (∃ k, counter ≤ k ∧ k < counter + fuel ∧ DbService.candidateName base k ∉ taken) →
    ∃ m, counter ≤ m ∧ DbService.genLoop fuel taken base counter
        = DbService.candidateName base m ∧
      DbService.candidateName base m ∉ taken ∧
      ∀ j, counter ≤ j → j < m → DbService.candidateName base j ∈ taken := by
  intro fuel
  induction fuel with
  | zero =>
    rintro counter ⟨k, h1, h2, -⟩
    omega
  | succ n ih =>
    rintro counter ⟨k, hk1, hk2, hk3⟩
    by_cases hmem : DbService.folderExists taken (DbService.candidateName base counter) = true
    · have hmem' : DbService.candidateName base counter ∈ taken := by
        simpa [DbService.folderExists] using hmem
      have hkc : counter ≠ k := by
        rintro rfl
        exact hk3 hmem'
      obtain ⟨m, hm1, hm2, hm3, hm4⟩ := ih (counter + 1) ⟨k, by omega, by omega, hk3⟩
      refine ⟨m, by omega, ?_, hm3, ?_⟩
      · simp [DbService.genLoop, hmem, hm2]
      · intro j hj1 hj2
        rcases Nat.eq_or_lt_of_le hj1 with rfl | hlt
        · exact hmem'
        · exact hm4 j hlt hj2
    · have hmem' : DbService.candidateName base counter ∉ taken := by
        simpa [DbService.folderExists] using hmem
      refine ⟨counter, Nat.le_refl _, ?_, hmem', ?_⟩
      · simp [DbService.genLoop, hmem]
      · intro j hj1 hj2
        omega

/--
C8: generateUniqueFolderName returns the slugified base name when no
existing project uses it; when the base collides, it returns the
candidate with the lowest counter not already taken, so successive
creations yield base, base-1, base-2, ... skipping taken names.
-/
theorem c8_generateUniqueFolderName (taken : List Str) (name : Str) :
    (DbService.slugify name ∉ taken →
      DbService.generateUniqueFolderName taken name = DbService.slugify name)
    ∧ (DbService.slugify name ∈ taken →
      ∃ m, 1 ≤ m ∧
        DbService.generateUniqueFolderName taken name
          = DbService.candidateName (DbService.slugify name) m ∧
        DbService.candidateName (DbService.slugify name) m ∉ taken ∧
        ∀ j, 1 ≤ j → j < m →
          DbService.candidateName (DbService.slugify name) j ∈ taken) := by
  constructor
  · intro h
    simp [DbService.generateUniqueFolderName, DbService.folderExists, h]
  · intro h
    obtain ⟨k, hk1, hk2, hk3⟩ := exists_free_candidate taken (DbService.slugify name)
    obtain ⟨m, hm1, hm2, hm3, hm4⟩ := genLoop_finds taken (DbService.slugify name)
      (taken.length + 1) 1 ⟨k, hk1, by omega, hk3⟩
    refine ⟨m, hm1, ?_, hm3, fun j hj1 hj2 => hm4 j hj1 hj2⟩
    simp [DbService.generateUniqueFolderName, DbService.folderExists, h, hm2]

/--
C8, witness: with my-site and my-site-1 already taken, creating another
project named My Site yields the folder my-site-2, through the claim
theorem instantiated at that state.
-/
theorem c8_generateUniqueFolderName_witness :
    DbService.generateUniqueFolderName ["my-site".data, "my-site-1".data] ("My Site".data)
      = "my-site-2".data := by
  obtain ⟨-, h2⟩ :=
    c8_generateUniqueFolderName ["my-site".data, "my-site-1".data] ("My Site".data)
  obtain ⟨m, hm1, heq, hfree, hmin⟩ := h2 (by decide)
  have hm2 : m = 2 := by
    by_contra hne
    rcases Nat.lt_trichotomy m 2 with hlt | he | hgt
    · have h1 : m = 1 := by omega
      subst h1
      exact hfree (by decide)
    · exact hne he
    · have hmem := hmin 2 (by omega) hgt
      revert hmem
      decide
  subst hm2
  rw [heq]
  decide

/-! ## Claim C9 -/

theorem noBackslash_mapSlash_id (s : Str) (h : noBackslash s = true) : mapSlash s = s := by
  induction s with
  | nil => rfl
  | cons c t ih =>
    simp only [noBackslash, List.all_cons, Bool.and_eq_true, decide_eq_true_eq] at h
    obtain ⟨hc, ht⟩ := h
    simp only [mapSlash, List.map_cons, if_neg hc]
    have := ih (by simpa [noBackslash] using ht)
    simp only [mapSlash] at this
    rw [this]

theorem mapSlash_ne_dot (c : Char) (h : c ≠ '.') :
    (if c = bslChar then '/' else c) ≠ '.' := by
  by_cases hb : c = bslChar
  · simp [hb]
  · simpa [hb] using h

theorem hasDotDot_mapSlash (s : Str) (h : hasDotDot s = false) :
    hasDotDot (mapSlash s) = false := by
  induction s with
  | nil => rfl
  | cons a t ih =>
    cases t with
    | nil => rfl
    | cons b t2 =>
      simp only [hasDotDot, Bool.or_eq_false_iff, Bool.and_eq_false_iff,
        decide_eq_false_iff_not] at h
      obtain ⟨hab, hrest⟩ := h
      have htail := ih hrest
      simp only [mapSlash, List.map_cons] at htail ⊢
      simp only [hasDotDot, Bool.or_eq_false_iff, Bool.and_eq_false_iff,
        decide_eq_false_iff_not]
      refine ⟨?_, htail⟩
      rcases hab with ha | hb
      · exact Or.inl (mapSlash_ne_dot a ha)
      · exact Or.inr (mapSlash_ne_dot b hb)

theorem stripLeading_id (s : Str) (h : hasDotDot s = false) :
    stripLeadingDotDots s = s := by
  cases s with
  | nil => rfl
  | cons a t =>
    cases t with
    | nil => rfl
    | cons b rest =>
      simp only [hasDotDot, Bool.or_eq_false_iff, Bool.and_eq_false_iff,
        decide_eq_false_iff_not] at h
      obtain ⟨hab, -⟩ := h
      have hne : ¬(a = '.' ∧ b = '.') := by
        rintro ⟨rfl, rfl⟩
        rcases hab with hc | hc <;> exact hc rfl
      unfold stripLeadingDotDots
      rw [if_neg hne]

/--
C9: for every file path the object-store validatePathSecurity accepts,
buildS3Key yields the project folder, a slash, and a remainder free of
adjacent dots, hence free of dot-dot segments; for nonempty paths whose
normal form has no backslash the remainder is exactly the normalized
path. Every object the backend touches for the project therefore lies
under the project key prefix. The folder is assumed backslash-free, as
every generated folder is.
-/
theorem c9_buildS3Key_under_folder (project : Project) (p : Str)
    (hf : noBackslash project.folder = true)
    (hv : S3Backend.validatePathSecurity p = true) :
    ∃ rest, S3Backend.buildS3Key project p = project.folder ++ '/' :: rest ∧
      hasDotDot rest = false ∧
      (p ≠ [] → noBackslash (pathNormalize p) = true → rest = pathNormalize p) := by
  by_cases hp : p = []
  · subst hp
    refine ⟨[], ?_, rfl, by simp⟩
    simp [S3Backend.buildS3Key]
  · have hnorm : hasDotDot (pathNormalize p) = false := by
      unfold S3Backend.validatePathSecurity at hv
      simp only [Bool.and_eq_true, Bool.not_eq_true'] at hv
      exact hv.1
    have hstrip : stripLeadingDotDots (pathNormalize p) = pathNormalize p :=
      stripLeading_id _ hnorm
    refine ⟨mapSlash (pathNormalize p), ?_, hasDotDot_mapSlash _ hnorm,
      fun _ hnb => noBackslash_mapSlash_id _ hnb⟩
    unfold S3Backend.buildS3Key
    rw [if_neg hp]
    dsimp only
    rw [hstrip]
    simp only [mapSlash, List.map_append, List.map_cons]
    rw [show ((if '/' = bslChar then '/' else '/') : Char) = '/' by decide]
    have hfold := noBackslash_mapSlash_id project.folder hf
    simp only [mapSlash] at hfold
    rw [hfold]

/--
C9, witness: the key built for css/site.css in the demo project is the
folder prefix followed by the unchanged normalized path.
-/
theorem c9_buildS3Key_under_folder_witness :
    S3Backend.buildS3Key projDemo ("css/site.css".data) = "demo/css/site.css".data := by
  obtain ⟨rest, h1, -, h3⟩ :=
    c9_buildS3Key_under_folder projDemo ("css/site.css".data) (by decide) (by decide)
  have hr : rest = pathNormalize ("css/site.css".data) := h3 (by decide) (by decide)
  rw [h1, hr]
  decide

/-! ## Claim C10 -/

theorem pathJoin_filter_eq (l1 l2 : List Str)
    (h : l1.filter (fun p => p ≠ []) = l2.filter (fun p => p ≠ [])) :
    pathJoin l1 = pathJoin l2 := by
  unfold pathJoin
  rw [h]

/--
C10: a project name with no ASCII letter or digit slugifies to the empty
string; when no existing project has the empty folder, the generator
returns the empty string, and a project whose folder is empty has the
shared data directory itself as its filesystem namespace root, the
directory that contains every project folder.
-/
theorem c10_empty_slug_folder (taken : List Str) (cwd : Str) (project : Project)
    (h : ([] : Str) ∉ taken) (hp : project.folder = []) :
    DbService.slugify ("!!!".data) = [] ∧
    DbService.generateUniqueFolderName taken ("!!!".data) = [] ∧
    FsBackend.buildProjectPath cwd project [] = pathJoin [cwd, "data".data] := by
  have hslug : DbService.slugify ("!!!".data) = [] := by decide
  refine ⟨hslug, ?_, ?_⟩
  · simp [DbService.generateUniqueFolderName, DbService.folderExists, hslug, h]
  · unfold FsBackend.buildProjectPath
    rw [hp]
    apply pathJoin_filter_eq
    have e : ([cwd, "data".data, ([] : Str)] ++ ([] : List Str))
        = [cwd, "data".data] ++ [([] : Str)] := by simp
    rw [e, List.filter_append]
    simp

/-- A project whose generated folder is the empty string. -/
def projBang : Project := Project.mk 3 "!!!".data "#abc".data [] []

/--
C10, witness: generating a folder for the name of three exclamation marks
with no projects taken yields the empty folder, and the namespace root of
the resulting project is the shared data directory /app/data.
-/
theorem c10_empty_slug_folder_witness :
    DbService.generateUniqueFolderName [] ("!!!".data) = [] ∧
    FsBackend.buildProjectPath cwd0 projBang [] = pathJoin [cwd0, "data".data] := by
  obtain ⟨-, h2, h3⟩ := c10_empty_slug_folder [] cwd0 projBang (by decide) rfl
  exact ⟨h2, h3⟩

/--
C1, witness for the amended statement: the path dot-dot-slash-x keeps its
dot-dot segment after normalization, so the object store rejects it; the
plain path x.txt resolves under the project root, so the filesystem read
does not raise AccessDenied for it.
-/
theorem c1_pathSecurity_amended_witness :
    S3Backend.validatePathSecurity ("../x".data) = false ∧
    FsBackend.readFile cwd0 projDemo ("x.txt".data) fsEmpty ≠
      Except.error FileErr.accessDenied := by
  constructor
  · obtain ⟨h1, -, -, -, -⟩ := c1_pathSecurity_amended ("../x".data) cwd0 [] projDemo fsEmpty
    exact h1.mpr (Or.inl (by decide))
  · obtain ⟨-, h2, -, -, -⟩ := c1_pathSecurity_amended ("x.txt".data) cwd0 [] projDemo fsEmpty
    intro hc
    have hfalse := h2.mp hc
    revert hfalse
    decide

/--
C7, witness for the amended statement: a layout with the content
placeholder, a toString placeholder and an unknown placeholder renders
with the page content injected, the prototype-chain identifier replaced
by the literal text undefined and the unknown identifier by the empty
string, and the result agrees with the specification-side renderer.
-/
theorem c7_render_amended_witness :
    Middleware.renderLayout
        ("A\x7b\x7bcontent\x7d\x7dB\x7b\x7btoString\x7d\x7dC\x7b\x7bbogus\x7d\x7dD".data)
        ("hello".data) projDemo
      = "AhelloBundefinedCD".data ∧
    Middleware.renderLayout
        ("A\x7b\x7bcontent\x7d\x7dB\x7b\x7btoString\x7d\x7dC\x7b\x7bbogus\x7d\x7dD".data)
        ("hello".data) projDemo
      = specRender
        ("A\x7b\x7bcontent\x7d\x7dB\x7b\x7btoString\x7d\x7dC\x7b\x7bbogus\x7d\x7dD".data)
        ("hello".data) projDemo :=
  ⟨by decide,
    c7_render_amended
      ("A\x7b\x7bcontent\x7d\x7dB\x7b\x7btoString\x7d\x7dC\x7b\x7bbogus\x7d\x7dD".data)
      ("hello".data) projDemo⟩
